import Mathlib

/-!
Verification development for the 5G metrics ingestion core of
`PauloFidalgo/cmov-5g` (`src/app.py`).

The embedding models:
* `RealTimeMetricsProcessor.read_new_data` / `reset_position` (cursor tracking,
  `app.py` lines 155-183 and 245-247); file contents are modelled as `List Char`
  and a missing file as `none`.
* `RealTimeMetricsProcessor.process_incremental_data` (incremental merge,
  `app.py` lines 185-243); a pandas DataFrame is modelled as a list of rows
  together with a flag recording whether the frame's schema has an `id` column.
* `NetworkMetricsProcessor.process_file` (batch ingestion, `app.py` lines
  255-311); the `st.error` report is modelled as the name of the source the
  error message embeds.
* The external Perl extraction engine (`scripts/script.pl`, invoked but not
  contained in `src/`), modelled from the spec's line grammar.
-/

/-- Convert a string literal to the `List Char` representation used for file
contents and log text throughout this development. -/
def str (s : String) : List Char := s.data

/-- State of `RealTimeMetricsProcessor` (`app.py` lines 155-158): a Perl script
path, the read cursor `last_position`, and the `monitoring` flag. -/
structure RealTimeMetricsProcessor where
  perl_script_path : String
  last_position : Nat
  monitoring : Bool
  deriving DecidableEq, Repr

/-- Constructor `RealTimeMetricsProcessor.__init__` (`app.py` lines 155-158): the cursor
starts at 0 and monitoring is off. -/
def RealTimeMetricsProcessor.init : RealTimeMetricsProcessor :=
  { perl_script_path := "scripts/script.pl", last_position := 0, monitoring := false }

/-- Method `read_new_data` (`app.py` lines 160-183).  A missing file returns `none`
and leaves the processor untouched.  Otherwise the file is opened, the handle
seeks to `last_position`, reads to end of file, and the cursor becomes the
offset `f.tell()` reached by the read: `file.length` when the cursor was within
the file, the unchanged cursor when it already pointed at or past end of file
(i.e. `max last_position file.length`).  The read content is returned when it
is non-empty after stripping whitespace, else `none`. -/
def RealTimeMetricsProcessor.read_new_data (p : RealTimeMetricsProcessor)
    (file : Option (List Char)) : Option (List Char) × RealTimeMetricsProcessor :=
  match file with
  | none => (none, p)
  | some content =>
    let new_content := content.drop p.last_position
    ((if new_content.all Char.isWhitespace then none else some new_content),
     { p with last_position := max p.last_position content.length })

/-- Method `reset_position` (`app.py` lines 245-247): set the cursor back to 0. -/
def RealTimeMetricsProcessor.reset_position (p : RealTimeMetricsProcessor) :
    RealTimeMetricsProcessor :=
  { p with last_position := 0 }

/-- One extracted measurement row (spec section 3): an `id`, the anchor's
latency, the remaining metric fields as raw name/value pairs, and the optional
`source_file` tag added by the batch path. -/
structure Record where
  id : Nat
  latency : Nat
  fields : List (List Char × List Char)
  source_file : Option String
  deriving DecidableEq, Repr

/-- Helper to build a record with a given id (used for concrete instances). -/
def mkRec (i : Nat) : Record :=
  { id := i, latency := 0, fields := [], source_file := none }

/-- A pandas DataFrame, as the merge code uses it: its rows, plus whether the
frame's schema contains an `id` column (`'id' in df.columns`). -/
structure DataFrame where
  hasIdCol : Bool
  rows : List Record
  deriving DecidableEq, Repr

/-- The value `existing_df['id'].max()` for a non-empty frame: the maximum of the `id`
column (the fold's base 0 is never the answer on non-empty `Nat` data unless 0
is itself the maximum). -/
def maxIdOf (rows : List Record) : Nat :=
  (rows.map Record.id).foldr max 0

/-- The merge of `process_incremental_data`'s success branch (`app.py` lines
212-228, error handler lines 234-236):
* `existing_df is None or existing_df.empty` returns `new_df` unchanged;
* otherwise `max_id = existing_df['id'].max() if 'id' in existing_df.columns
  else 0`; evaluating `new_df['id']` raises `KeyError` when `new_df` has no
  `id` column, which the `except` handler turns into returning `existing_df`;
* otherwise keep the new rows with `id > max_id`; if none remain return
  `existing_df`, else `pd.concat([existing_df, new_df])` (row append, schema =
  union of the two schemas). -/
def mergeIncremental (existing_df new_df : DataFrame) : DataFrame :=
  if existing_df.rows.isEmpty then new_df
  else if new_df.hasIdCol = false then existing_df
  else
    let max_id := if existing_df.hasIdCol then maxIdOf existing_df.rows else 0
    let filtered := new_df.rows.filter (fun r => decide (max_id < r.id))
    if filtered.isEmpty then existing_df
    else { hasIdCol := existing_df.hasIdCol || new_df.hasIdCol,
           rows := existing_df.rows ++ filtered }

/-- Outcome of one invocation of the extraction engine plus CSV parse, the
condition branches of `app.py` lines 204-239 and 274-303:
`ok df` is `returncode == 0` with non-empty parseable stdout;
`okEmptyOutput` is `returncode == 0` with empty stdout;
`nonzeroExit` a failing exit status; `timeout` a `subprocess.TimeoutExpired`;
`unparseable` a `pd.read_csv` parse exception. -/
inductive RunResult where
  | ok (df : DataFrame)
  | okEmptyOutput
  | nonzeroExit
  | timeout
  | unparseable
  deriving DecidableEq, Repr

/-- Method `process_incremental_data` (`app.py` lines 185-243), with the engine run
abstracted as a `RunResult`: on a successful parseable run the result is the
merge; every failure path (`returncode != 0` or empty stdout at line 232,
timeout or parse error caught at lines 234-236) returns `existing_df`. -/
def process_incremental_data (res : RunResult) (existing_df : DataFrame) : DataFrame :=
  match res with
  | RunResult.ok new_df => mergeIncremental existing_df new_df
  | _ => existing_df

/-- Method `NetworkMetricsProcessor.process_file` (`app.py` lines 255-311): on a
successful parseable run, every row gains `source_file = filename` and the
tagged frame is returned with no error report; on every failure path the
result is `None` and the `st.error` message (lines 295, 299, 302) embeds
`filename` — the second component models which source the report names. -/
def process_file (res : RunResult) (filename : String) :
    Option DataFrame × Option String :=
  match res with
  | RunResult.ok df =>
    (some { hasIdCol := df.hasIdCol,
            rows := df.rows.map (fun r => { r with source_file := some filename }) },
     none)
  | _ => (none, some filename)

/-- The batch caller loop (`non_real_time_tab`, `app.py` lines 665-679):
each uploaded file is processed independently of its siblings. -/
def processFiles (inputs : List (String × RunResult)) :
    List (String × (Option DataFrame × Option String)) :=
  inputs.map (fun p => (p.1, process_file p.2 p.1))

/-- Split a character list at every occurrence of `c`, mirroring
`String.splitOn` for a single-character separator. -/
def splitOnChar (c : Char) : List Char → List (List Char)
  | [] => [[]]
  | x :: xs =>
    let r := splitOnChar c xs
    if x = c then [] :: r
    else
      match r with
      | [] => [[x]]
      | y :: ys => (x :: y) :: ys

/-- Whitespace-separated tokens of a line. -/
def lineTokens (l : List Char) : List (List Char) :=
  (splitOnChar ' ' l).filter (fun t => decide (t ≠ []))

/-- Parse a non-empty all-digit token as a natural number. -/
def digitsToNat (cs : List Char) : Option Nat :=
  if cs ≠ [] ∧ cs.all Char.isDigit then
    some (cs.foldl (fun a c => a * 10 + (c.toNat - 48)) 0)
  else none

/-- Modelled from the spec: the anchor line of a measurement block recognised
by the external extraction engine `scripts/script.pl` (not under `src/`),
spec section 6: a line matching `<id> KPM ind_msg latency = <integer> [μs]`.
Returns the block's id and latency. -/
def parseAnchor (l : List Char) : Option (Nat × Nat) :=
  match lineTokens l with
  | [i, t1, t2, t3, t4, v, t5] =>
    if t1 = str "KPM" ∧ t2 = str "ind_msg" ∧ t3 = str "latency" ∧
       t4 = str "=" ∧ t5 = str "[μs]" then
      match digitsToNat i, digitsToNat v with
      | some iv, some lv => some (iv, lv)
      | _, _ => none
    else none
  | _ => none

/-- Modelled from the spec: a metric line `<Namespace>.<Field> = <value>
[<unit>]` of the extraction engine's grammar (spec section 6). -/
def parseField (l : List Char) : Option (List Char × List Char) :=
  match lineTokens l with
  | [n, eq, v, u] =>
    if eq = str "=" ∧ n.contains '.' ∧ u ≠ [] then some (n, v) else none
  | _ => none

/-- Modelled from the spec: the extraction engine's scan over the lines of a
text block.  An anchor line opens a new record (emitting the one in progress);
a metric line adds a field to the record in progress; other lines are
ignored; the record in progress is emitted at end of input. -/
def extractAux (cur : Option Record) : List (List Char) → List Record
  | [] => cur.toList
  | l :: ls =>
    match parseAnchor l with
    | some iv =>
      cur.toList ++ extractAux (some { id := iv.1, latency := iv.2, fields := [],
                                       source_file := none }) ls
    | none =>
      match parseField l, cur with
      | some nv, some r => extractAux (some { r with fields := r.fields ++ [nv] }) ls
      | _, _ => extractAux cur ls

/-- Modelled from the spec: extract all records from a list of lines. -/
def extractLines (ls : List (List Char)) : List Record :=
  extractAux none ls

/-- Split a text block into its lines. -/
def splitLines (t : List Char) : List (List Char) :=
  splitOnChar '\n' t

/-- Modelled from the spec: extract all records from a raw text block. -/
def extractText (t : List Char) : List Record :=
  extractLines (splitLines t)

/-- The DataFrame obtained from parsing the engine's CSV output on a text
block: the extracted rows, schema containing the `id` column. -/
def extractDF (t : List Char) : DataFrame :=
  { hasIdCol := true, rows := extractText t }

/-- The DataFrame obtained from the engine's output on a list of lines. -/
def dfOfLines (ls : List (List Char)) : DataFrame :=
  { hasIdCol := true, rows := extractLines ls }

/-- The ids appearing on anchor lines, in order. -/
def anchors (ls : List (List Char)) : List Nat :=
  ls.filterMap (fun l => (parseAnchor l).map Prod.fst)

/-- The id column of a DataFrame, in row order. -/
def idsOf (df : DataFrame) : List Nat :=
  df.rows.map Record.id

/-- The streaming path on raw text chunks: starting from the empty session
frame `pd.DataFrame()` (no columns), extract each chunk and merge it
(`real_time_tab`, `app.py` lines 541-555). -/
def streamRun (chunks : List (List Char)) : DataFrame :=
  chunks.foldl
    (fun df c => process_incremental_data (RunResult.ok (extractDF c)) df)
    { hasIdCol := false, rows := [] }

/-- The streaming path when every chunk is a whole list of lines. -/
def streamRunLines (chunks : List (List (List Char))) : DataFrame :=
  chunks.foldl
    (fun df c => process_incremental_data (RunResult.ok (dfOfLines c)) df)
    { hasIdCol := false, rows := [] }

/-- Datasets reachable by merging a sequence of extracted batches, starting
from the empty session frame. -/
def reach (batches : List (List Record)) : DataFrame :=
  batches.foldl
    (fun d b => process_incremental_data (RunResult.ok { hasIdCol := true, rows := b }) d)
    { hasIdCol := false, rows := [] }

/-- One poll iteration of the streaming tab after the read step: the records
extracted from the re-read file content are merged into the session dataset
(`real_time_tab`, `app.py` lines 548-555). -/
def pollStep (recs : List Record) (d : DataFrame) : DataFrame :=
  process_incremental_data (RunResult.ok { hasIdCol := true, rows := recs }) d

/-! ### Helper lemmas -/

theorem le_foldrMax (xs : List Nat) : ∀ x ∈ xs, x ≤ xs.foldr max 0 := by
  induction xs with
  | nil => intro x hx; cases hx
  | cons a l ih =>
    intro x hx
    rcases List.mem_cons.mp hx with h | h
    · subst h; exact le_max_left _ _
    · exact le_trans (ih x h) (le_max_right _ _)

theorem foldrMax_mem (xs : List Nat) (h : xs ≠ []) : xs.foldr max 0 ∈ xs := by
  induction xs with
  | nil => exact absurd rfl h
  | cons a l ih =>
    cases l with
    | nil => simp
    | cons b m =>
      have hm : (b :: m).foldr max 0 ∈ b :: m := ih (by simp)
      rcases le_total a ((b :: m).foldr max 0) with hle | hle
      · rw [List.foldr_cons, max_eq_right hle]
        exact List.mem_cons_of_mem _ hm
      · rw [List.foldr_cons, max_eq_left hle]
        exact List.mem_cons_self _ _

theorem foldrMax_init_le (xs : List Nat) (b : Nat) : xs.foldr max 0 ≤ xs.foldr max b := by
  induction xs with
  | nil => exact Nat.zero_le _
  | cons a l ih => exact max_le_max (le_refl a) ih

theorem maxIdOf_le (rows : List Record) : ∀ r ∈ rows, r.id ≤ maxIdOf rows := by
  intro r hr
  exact le_foldrMax _ _ (List.mem_map.mpr ⟨r, hr, rfl⟩)

theorem maxIdOf_mem (rows : List Record) (h : rows ≠ []) :
    maxIdOf rows ∈ rows.map Record.id := by
  apply foldrMax_mem
  simpa using h

theorem maxIdOf_le_append (xs ys : List Record) : maxIdOf xs ≤ maxIdOf (xs ++ ys) := by
  unfold maxIdOf
  rw [List.map_append, List.foldr_append]
  exact foldrMax_init_le _ _

theorem mergeIncremental_emptyExisting (d n : DataFrame) (h : d.rows = []) :
    mergeIncremental d n = n := by
  unfold mergeIncremental
  rw [if_pos]
  rw [h]
  rfl

theorem mergeIncremental_rows_idcol (d n : DataFrame) (hd : d.rows ≠ [])
    (hcolD : d.hasIdCol = true) (hn : n.hasIdCol = true) :
    (mergeIncremental d n).rows =
      d.rows ++ n.rows.filter (fun r => decide (maxIdOf d.rows < r.id)) := by
  unfold mergeIncremental
  rw [if_neg (by simpa [List.isEmpty_iff] using hd), if_neg (by simp [hn]),
    if_pos hcolD]
  dsimp only
  split
  next hfilter =>
    rw [List.isEmpty_iff.mp hfilter, List.append_nil]
  next => rfl

theorem mergeIncremental_rows_noIdcol (d n : DataFrame) (hd : d.rows ≠ [])
    (hcolD : d.hasIdCol = false) (hn : n.hasIdCol = true) :
    (mergeIncremental d n).rows =
      d.rows ++ n.rows.filter (fun r => decide (0 < r.id)) := by
  unfold mergeIncremental
  rw [if_neg (by simpa [List.isEmpty_iff] using hd), if_neg (by simp [hn]),
    if_neg (show ¬(d.hasIdCol = true) by simp [hcolD])]
  dsimp only
  split
  next hfilter =>
    rw [List.isEmpty_iff.mp hfilter, List.append_nil]
  next => rfl

theorem mergeIncremental_hasIdCol (d n : DataFrame) (hn : n.hasIdCol = true)
    (hd : d.rows ≠ [] → d.hasIdCol = true) :
    (mergeIncremental d n).rows ≠ [] → (mergeIncremental d n).hasIdCol = true := by
  intro _
  by_cases h : d.rows = []
  · rw [mergeIncremental_emptyExisting d n h]
    exact hn
  · have hcolD := hd h
    unfold mergeIncremental
    rw [if_neg (by simpa [List.isEmpty_iff] using h), if_neg (by simp [hn]),
      if_pos hcolD]
    dsimp only
    split
    next => exact hcolD
    next => simp [hcolD]

theorem extractAux_ids : ∀ (ls : List (List Char)) (cur : Option Record),
    (extractAux cur ls).map Record.id = cur.toList.map Record.id ++ anchors ls
  | [], cur => by simp [extractAux, anchors]
  | l :: ls, cur => by
    cases hA : parseAnchor l with
    | some iv =>
      have ih := extractAux_ids ls
        (some { id := iv.1, latency := iv.2, fields := [], source_file := none })
      simp [extractAux, hA, anchors, List.filterMap_cons, ih]
    | none =>
      cases hF : parseField l with
      | some nv =>
        cases cur with
        | some r =>
          have ih := extractAux_ids ls (some { r with fields := r.fields ++ [nv] })
          simp [extractAux, hA, hF, anchors, List.filterMap_cons, ih]
        | none =>
          have ih := extractAux_ids ls none
          simp [extractAux, hA, hF, anchors, List.filterMap_cons, ih]
      | none =>
        have ih := extractAux_ids ls cur
        simp [extractAux, hA, hF, anchors, List.filterMap_cons, ih]

theorem extractLines_ids (ls : List (List Char)) :
    (extractLines ls).map Record.id = anchors ls := by
  simpa [extractLines] using extractAux_ids ls none

theorem anchors_append (a b : List (List Char)) :
    anchors (a ++ b) = anchors a ++ anchors b := by
  simp [anchors, List.filterMap_append]

theorem anchors_flatten (L : List (List (List Char))) :
    anchors L.flatten = (L.map anchors).flatten := by
  induction L with
  | nil => simp [anchors]
  | cons a L ih => simp [List.flatten_cons, anchors_append, ih]

theorem streamAux_ids : ∀ (cs : List (List (List Char))) (df : DataFrame),
    (df.rows ≠ [] → df.hasIdCol = true) →
    List.Pairwise (· < ·) (idsOf df ++ (cs.map anchors).flatten) →
    idsOf (cs.foldl
        (fun d c => process_incremental_data (RunResult.ok (dfOfLines c)) d) df)
      = idsOf df ++ (cs.map anchors).flatten
  | [], df, _, _ => by simp
  | c :: cs, df, hcol, hp => by
    have hids_new : (dfOfLines c).rows.map Record.id = anchors c := by
      simpa [dfOfLines] using extractLines_ids c
    by_cases hd : df.rows = []
    · have hm : process_incremental_data (RunResult.ok (dfOfLines c)) df = dfOfLines c :=
        mergeIncremental_emptyExisting _ _ hd
      have hdf0 : idsOf df = [] := by simp [idsOf, hd]
      have hp' : List.Pairwise (· < ·)
          (idsOf (dfOfLines c) ++ (cs.map anchors).flatten) := by
        have := hp
        rw [hdf0] at this
        simpa [idsOf, hids_new, List.flatten_cons] using this
      have hcol' : (dfOfLines c).rows ≠ [] → (dfOfLines c).hasIdCol = true :=
        fun _ => rfl
      have ih := streamAux_ids cs (dfOfLines c) hcol' hp'
      rw [List.foldl_cons, hm, ih, hdf0]
      simp [idsOf, hids_new, List.flatten_cons]
    · have hcolD : df.hasIdCol = true := hcol hd
      have hrows : (mergeIncremental df (dfOfLines c)).rows =
          df.rows ++ (dfOfLines c).rows.filter
            (fun r => decide (maxIdOf df.rows < r.id)) :=
        mergeIncremental_rows_idcol _ _ hd hcolD rfl
      have hkeep : (dfOfLines c).rows.filter
          (fun r => decide (maxIdOf df.rows < r.id)) = (dfOfLines c).rows := by
        apply List.filter_eq_self.mpr
        intro r hr
        rw [decide_eq_true_eq]
        have hrid : r.id ∈ anchors c := by
          rw [← hids_new]
          exact List.mem_map_of_mem _ hr
        have hmax : maxIdOf df.rows ∈ idsOf df := maxIdOf_mem _ hd
        have hcross := (List.pairwise_append.mp hp).2.2
        refine hcross _ hmax _ ?_
        rw [List.map_cons, List.flatten_cons]
        exact List.mem_append.mpr (Or.inl hrid)
      have hmids : idsOf (mergeIncremental df (dfOfLines c)) = idsOf df ++ anchors c := by
        rw [idsOf, hrows, hkeep, List.map_append, hids_new]
        rfl
      have hcol' : (mergeIncremental df (dfOfLines c)).rows ≠ [] →
          (mergeIncremental df (dfOfLines c)).hasIdCol = true :=
        mergeIncremental_hasIdCol _ _ rfl hcol
      have hp' : List.Pairwise (· < ·)
          (idsOf (mergeIncremental df (dfOfLines c)) ++ (cs.map anchors).flatten) := by
        rw [hmids, List.append_assoc]
        simpa [List.flatten_cons] using hp
      have ih := streamAux_ids cs (mergeIncremental df (dfOfLines c)) hcol' hp'
      rw [List.foldl_cons]
      show idsOf (cs.foldl _ (mergeIncremental df (dfOfLines c))) = _
      rw [ih, hmids]
      simp [List.flatten_cons, List.append_assoc]

theorem mergeIncremental_extends (d n : DataFrame) :
    ∃ suffix, (mergeIncremental d n).rows = d.rows ++ suffix := by
  by_cases hd : d.rows = []
  · exact ⟨n.rows, by rw [mergeIncremental_emptyExisting d n hd, hd]; rfl⟩
  · cases hn : n.hasIdCol with
    | false =>
      refine ⟨[], ?_⟩
      unfold mergeIncremental
      rw [if_neg (by simpa [List.isEmpty_iff] using hd), if_pos hn, List.append_nil]
    | true =>
      cases hcolD : d.hasIdCol with
      | true => exact ⟨_, mergeIncremental_rows_idcol d n hd hcolD hn⟩
      | false => exact ⟨_, mergeIncremental_rows_noIdcol d n hd hcolD hn⟩

theorem mergeIncremental_stale (d n : DataFrame) (r : Record) (hd : d.rows ≠ [])
    (hcolD : d.hasIdCol = true) (hn : n.hasIdCol = true)
    (hr : r.id ≤ maxIdOf d.rows) :
    (r ∈ (mergeIncremental d n).rows ↔ r ∈ d.rows) := by
  rw [mergeIncremental_rows_idcol d n hd hcolD hn, List.mem_append]
  constructor
  · rintro (h | h)
    · exact h
    · have := (List.mem_filter.mp h).2
      rw [decide_eq_true_eq] at this
      exact absurd hr (not_le.mpr this)
  · exact Or.inl

theorem mergeIncremental_noNew (d n : DataFrame) (hd : d.rows ≠ [])
    (hcolD : d.hasIdCol = true) (hn : n.hasIdCol = true)
    (h : ∀ r ∈ n.rows, r.id ≤ maxIdOf d.rows) :
    mergeIncremental d n = d := by
  have hfilter : (n.rows.filter (fun r => decide (maxIdOf d.rows < r.id))).isEmpty = true := by
    apply List.isEmpty_iff.mpr
    apply List.filter_eq_nil_iff.mpr
    intro a ha
    simpa using not_lt.mpr (h a ha)
  unfold mergeIncremental
  rw [if_neg (by simpa [List.isEmpty_iff] using hd), if_neg (by simp [hn]),
    if_pos hcolD]
  dsimp only
  rw [if_pos hfilter]

theorem mergeIncremental_noNew_noIdcol (d n : DataFrame) (hd : d.rows ≠ [])
    (hcolD : d.hasIdCol = false) (hn : n.hasIdCol = true)
    (h : n.rows.filter (fun r => decide (0 < r.id)) = []) :
    mergeIncremental d n = d := by
  unfold mergeIncremental
  rw [if_neg (by simpa [List.isEmpty_iff] using hd), if_neg (by simp [hn]),
    if_neg (show ¬(d.hasIdCol = true) by simp [hcolD])]
  dsimp only
  rw [if_pos (by simp [h])]

theorem mergeIncremental_append_idcol (d n : DataFrame) (hd : d.rows ≠ [])
    (hcolD : d.hasIdCol = true) (hn : n.hasIdCol = true)
    (hne : n.rows.filter (fun r => decide (maxIdOf d.rows < r.id)) ≠ []) :
    mergeIncremental d n =
      ⟨true, d.rows ++ n.rows.filter (fun r => decide (maxIdOf d.rows < r.id))⟩ := by
  unfold mergeIncremental
  rw [if_neg (by simpa [List.isEmpty_iff] using hd), if_neg (by simp [hn]),
    if_pos hcolD]
  dsimp only
  rw [if_neg (by simpa [List.isEmpty_iff] using hne)]
  simp [hcolD]

theorem mergeIncremental_append_noIdcol (d n : DataFrame) (hd : d.rows ≠ [])
    (hcolD : d.hasIdCol = false) (hn : n.hasIdCol = true)
    (hne : n.rows.filter (fun r => decide (0 < r.id)) ≠ []) :
    mergeIncremental d n =
      ⟨true, d.rows ++ n.rows.filter (fun r => decide (0 < r.id))⟩ := by
  unfold mergeIncremental
  rw [if_neg (by simpa [List.isEmpty_iff] using hd), if_neg (by simp [hn]),
    if_neg (show ¬(d.hasIdCol = true) by simp [hcolD])]
  dsimp only
  rw [if_neg (by simpa [List.isEmpty_iff] using hne)]
  simp [hcolD, hn]

theorem pollStep_idem (recs : List Record) (d : DataFrame) :
    pollStep recs (pollStep recs d) = pollStep recs d := by
  show mergeIncremental (mergeIncremental d ⟨true, recs⟩) ⟨true, recs⟩ =
    mergeIncremental d ⟨true, recs⟩
  by_cases hd : d.rows = []
  · rw [mergeIncremental_emptyExisting d _ hd]
    by_cases hr : recs = []
    · exact mergeIncremental_emptyExisting _ _ (by simpa using hr)
    · exact mergeIncremental_noNew ⟨true, recs⟩ ⟨true, recs⟩ (by simpa using hr) rfl rfl
        (fun r hrr => maxIdOf_le recs r hrr)
  · cases hcolD : d.hasIdCol with
    | true =>
      by_cases hk : recs.filter (fun r => decide (maxIdOf d.rows < r.id)) = []
      · have hm : mergeIncremental d ⟨true, recs⟩ = d := by
          apply mergeIncremental_noNew d ⟨true, recs⟩ hd hcolD rfl
          intro r hrr
          have := List.filter_eq_nil_iff.mp hk r hrr
          simpa using not_lt.mp (by simpa using this)
        rw [hm]
        apply mergeIncremental_noNew d ⟨true, recs⟩ hd hcolD rfl
        intro r hrr
        have := List.filter_eq_nil_iff.mp hk r hrr
        simpa using not_lt.mp (by simpa using this)
      · have hm : mergeIncremental d ⟨true, recs⟩ =
            ⟨true, d.rows ++ recs.filter (fun r => decide (maxIdOf d.rows < r.id))⟩ :=
          mergeIncremental_append_idcol d ⟨true, recs⟩ hd hcolD rfl hk
        rw [hm]
        apply mergeIncremental_noNew _ ⟨true, recs⟩
          (by simp [hd]) rfl rfl
        intro r hrr
        by_cases hgt : maxIdOf d.rows < r.id
        · exact maxIdOf_le _ r
            (List.mem_append.mpr (Or.inr (List.mem_filter.mpr ⟨hrr, by simpa using hgt⟩)))
        · exact le_trans (not_lt.mp hgt) (maxIdOf_le_append _ _)
    | false =>
      by_cases hk : recs.filter (fun r => decide (0 < r.id)) = []
      · have hm : mergeIncremental d ⟨true, recs⟩ = d :=
          mergeIncremental_noNew_noIdcol d ⟨true, recs⟩ hd hcolD rfl hk
        rw [hm]
        exact mergeIncremental_noNew_noIdcol d ⟨true, recs⟩ hd hcolD rfl hk
      · have hm : mergeIncremental d ⟨true, recs⟩ =
            ⟨true, d.rows ++ recs.filter (fun r => decide (0 < r.id))⟩ :=
          mergeIncremental_append_noIdcol d ⟨true, recs⟩ hd hcolD rfl hk
        rw [hm]
        apply mergeIncremental_noNew _ ⟨true, recs⟩ (by simp [hd]) rfl rfl
        intro r hrr
        by_cases hgt : 0 < r.id
        · exact maxIdOf_le _ r
            (List.mem_append.mpr (Or.inr (List.mem_filter.mpr ⟨hrr, by simpa using hgt⟩)))
        · have : r.id = 0 := Nat.eq_zero_of_not_pos hgt
          simp [this]

theorem reachAux : ∀ (bs : List (List Record)) (d : DataFrame),
    (d.rows ≠ [] → d.hasIdCol = true) →
    List.Pairwise (· < ·) (idsOf d) →
    (∀ b ∈ bs, List.Pairwise (fun r s : Record => r.id < s.id) b) →
    List.Pairwise (· < ·) (idsOf (bs.foldl
      (fun x b => process_incremental_data (RunResult.ok ⟨true, b⟩) x) d))
  | [], _, _, hd, _ => by simpa using hd
  | b :: bs, d, hcol, hd, hb => by
    have hbhead := hb b (List.mem_cons_self _ _)
    have hbtail : ∀ x ∈ bs, List.Pairwise (fun r s : Record => r.id < s.id) x :=
      fun x hx => hb x (List.mem_cons_of_mem _ hx)
    have hcol' : (mergeIncremental d ⟨true, b⟩).rows ≠ [] →
        (mergeIncremental d ⟨true, b⟩).hasIdCol = true :=
      mergeIncremental_hasIdCol _ _ rfl hcol
    have hpm : List.Pairwise (· < ·) (idsOf (mergeIncremental d ⟨true, b⟩)) := by
      by_cases hdr : d.rows = []
      · rw [mergeIncremental_emptyExisting _ _ hdr]
        exact List.pairwise_map.mpr hbhead
      · have hcolD := hcol hdr
        rw [idsOf, mergeIncremental_rows_idcol d ⟨true, b⟩ hdr hcolD rfl,
          List.map_append]
        apply List.pairwise_append.mpr
        refine ⟨hd, ?_, ?_⟩
        · exact List.pairwise_map.mpr
            (List.Pairwise.sublist (List.filter_sublist _) hbhead)
        · intro x hx y hy
          obtain ⟨rx, hrx, hrxe⟩ := List.mem_map.mp hx
          obtain ⟨ry, hry, hrye⟩ := List.mem_map.mp hy
          have hygt : maxIdOf d.rows < ry.id := by
            have := (List.mem_filter.mp hry).2
            simpa using this
          have hxle : x ≤ maxIdOf d.rows := by
            rw [← hrxe]
            exact maxIdOf_le _ rx hrx
          rw [← hrye]
          exact lt_of_le_of_lt hxle hygt
    have ih := reachAux bs (mergeIncremental d ⟨true, b⟩) hcol' hpm hbtail
    rw [List.foldl_cons]
    exact ih

/-! ### Claim theorems -/

/-- Claim C1, counterexample to the claim as stated.  The chunks
`"1 KPM ind"` and `"_msg latency = 2 [μs]"` concatenate to a full log whose
batch ingestion yields the id set `{1}`, yet the streaming path extracts
nothing from either chunk (the anchor line is split mid-token), ending with an
empty id set.  Moreover even a split on a line boundary fails when ids are not
increasing: for the two-line log with anchor ids `[2, 1]`, streaming keeps only
`{2}` while batch ingestion yields `{2, 1}`. -/
theorem c1_counterexample :
    (str "1 KPM ind" ++ str "_msg latency = 2 [μs]" =
      str "1 KPM ind_msg latency = 2 [μs]") ∧
    idsOf (streamRun [str "1 KPM ind", str "_msg latency = 2 [μs]"]) = [] ∧
    ((process_file (RunResult.ok
        (extractDF (str "1 KPM ind_msg latency = 2 [μs]"))) "realtime.log").1.map idsOf
      = some [1]) ∧
    (str "2 KPM ind_msg latency = 5 [μs]\n" ++ str "1 KPM ind_msg latency = 5 [μs]" =
      str "2 KPM ind_msg latency = 5 [μs]\n1 KPM ind_msg latency = 5 [μs]") ∧
    idsOf (streamRun [str "2 KPM ind_msg latency = 5 [μs]\n",
                      str "1 KPM ind_msg latency = 5 [μs]"]) = [2] ∧
    ((process_file (RunResult.ok (extractDF
        (str "2 KPM ind_msg latency = 5 [μs]\n1 KPM ind_msg latency = 5 [μs]")))
        "realtime.log").1.map idsOf = some [2, 1]) := by
  decide

/-- Claim C1 (amended): for every way of feeding the log to the streaming path
in chunks that are whole sequences of lines, if the anchor ids are strictly
increasing along the full log then the final merged dataset carries exactly
the id sequence of the dataset produced by batch-ingesting the full log in one
call — in particular the two record sets, compared by id, are equal. -/
theorem c1_stream_equals_batch (chunks : List (List (List Char))) (fname : String)
    (h : List.Pairwise (· < ·) (anchors chunks.flatten)) :
    ∃ out, (process_file (RunResult.ok (dfOfLines chunks.flatten)) fname).1 = some out ∧
      idsOf (streamRunLines chunks) = idsOf out ∧
      (∀ i, i ∈ idsOf (streamRunLines chunks) ↔ i ∈ idsOf out) := by
  refine ⟨_, rfl, ?_⟩
  have hbatch : idsOf ⟨(dfOfLines chunks.flatten).hasIdCol,
      (dfOfLines chunks.flatten).rows.map
        (fun r => { r with source_file := some fname })⟩ = anchors chunks.flatten := by
    show ((dfOfLines chunks.flatten).rows.map
        (fun r => { r with source_file := some fname })).map Record.id = _
    rw [List.map_map]
    have : (Record.id ∘ fun r => { r with source_file := some fname }) = Record.id := rfl
    rw [this]
    simpa [dfOfLines] using extractLines_ids chunks.flatten
  have hp : List.Pairwise (· < ·)
      (idsOf (⟨false, []⟩ : DataFrame) ++ (chunks.map anchors).flatten) := by
    simpa [idsOf, ← anchors_flatten] using h
  have hstream := streamAux_ids chunks ⟨false, []⟩ (fun hc => absurd rfl hc) hp
  have hξ : idsOf (streamRunLines chunks) = anchors chunks.flatten := by
    rw [streamRunLines, hstream]
    simp [idsOf, ← anchors_flatten]
  constructor
  · rw [hξ, hbatch]
  · intro i
    rw [hξ, hbatch]

/-- Witness for C1 (amended), at a two-chunk log with anchor ids 1 and 2. -/
theorem c1_stream_equals_batch_witness :
    ∃ out, (process_file (RunResult.ok (dfOfLines
        ([[str "1 KPM ind_msg latency = 5 [μs]"],
          [str "2 KPM ind_msg latency = 6 [μs]"]] : List (List (List Char))).flatten))
        "realtime.log").1 = some out ∧
      idsOf (streamRunLines [[str "1 KPM ind_msg latency = 5 [μs]"],
                             [str "2 KPM ind_msg latency = 6 [μs]"]]) = idsOf out ∧
      (∀ i, i ∈ idsOf (streamRunLines [[str "1 KPM ind_msg latency = 5 [μs]"],
          [str "2 KPM ind_msg latency = 6 [μs]"]]) ↔ i ∈ idsOf out) :=
  c1_stream_equals_batch _ "realtime.log" (by decide)

/-- Claim C2: merging a chunk all of whose record ids are at most the maximum
id present in the (non-empty) existing dataset returns the existing dataset
itself — re-delivery of an already-merged chunk is an idempotent no-op. -/
theorem c2_redelivery_noop (D new_df : DataFrame) (hD : D.rows ≠ [])
    (hcol : D.hasIdCol = true)
    (h : ∀ r ∈ new_df.rows, r.id ≤ maxIdOf D.rows) :
    process_incremental_data (RunResult.ok new_df) D = D := by
  show mergeIncremental D new_df = D
  cases hn : new_df.hasIdCol with
  | true => exact mergeIncremental_noNew D new_df hD hcol hn h
  | false =>
    unfold mergeIncremental
    rw [if_neg (by simpa [List.isEmpty_iff] using hD), if_pos hn]

/-- Witness for C2: ids `[5, 6]` re-delivered onto a dataset with max id 6. -/
theorem c2_redelivery_noop_witness :
    process_incremental_data (RunResult.ok ⟨true, [mkRec 5, mkRec 6]⟩)
        ⟨true, [mkRec 6]⟩ = ⟨true, [mkRec 6]⟩ :=
  c2_redelivery_noop _ _ (by decide) rfl (by decide)

/-- Claim C3: for a non-empty existing dataset the merge computes `max_id` as
the maximum id of the existing dataset (an upper bound that is attained),
keeps exactly the new records with id strictly greater than `max_id` appended
after the existing rows in their original relative order, returns the existing
dataset unchanged when none remain, returns exactly the new records when the
existing dataset is empty, and on existing max id 6 with new ids `[5,6,7]`
appends exactly the record with id 7. -/
theorem c3_merge_functional :
    (∀ (D n : DataFrame), D.rows ≠ [] → D.hasIdCol = true → n.hasIdCol = true →
      (process_incremental_data (RunResult.ok n) D).rows =
        D.rows ++ n.rows.filter (fun r => decide (maxIdOf D.rows < r.id))) ∧
    (∀ (D : DataFrame), D.rows ≠ [] →
      (∀ r ∈ D.rows, r.id ≤ maxIdOf D.rows) ∧
        maxIdOf D.rows ∈ D.rows.map Record.id) ∧
    (∀ (D n : DataFrame), D.rows ≠ [] → D.hasIdCol = true → n.hasIdCol = true →
      n.rows.filter (fun r => decide (maxIdOf D.rows < r.id)) = [] →
      process_incremental_data (RunResult.ok n) D = D) ∧
    (∀ (b : Bool) (n : DataFrame),
      process_incremental_data (RunResult.ok n) ⟨b, []⟩ = n) ∧
    (process_incremental_data (RunResult.ok ⟨true, [mkRec 5, mkRec 6, mkRec 7]⟩)
        ⟨true, [mkRec 4, mkRec 6]⟩ = ⟨true, [mkRec 4, mkRec 6, mkRec 7]⟩) := by
  refine ⟨?_, ?_, ?_, ?_, by decide⟩
  · intro D n hD hcolD hn
    exact mergeIncremental_rows_idcol D n hD hcolD hn
  · intro D hD
    exact ⟨maxIdOf_le D.rows, maxIdOf_mem D.rows hD⟩
  · intro D n hD hcolD hn hk
    apply mergeIncremental_noNew D n hD hcolD hn
    intro r hr
    have := List.filter_eq_nil_iff.mp hk r hr
    simpa using not_lt.mp (by simpa using this)
  · intro b n
    exact mergeIncremental_emptyExisting _ _ rfl

/-- Witness for C3, instantiating the general append equation at existing ids
`[4, 6]` and new ids `[5, 6, 7]`. -/
theorem c3_merge_functional_witness :
    (process_incremental_data (RunResult.ok ⟨true, [mkRec 5, mkRec 6, mkRec 7]⟩)
        ⟨true, [mkRec 4, mkRec 6]⟩).rows =
      (DataFrame.mk true [mkRec 4, mkRec 6]).rows ++
        (DataFrame.mk true [mkRec 5, mkRec 6, mkRec 7]).rows.filter
          (fun r => decide (maxIdOf (DataFrame.mk true [mkRec 4, mkRec 6]).rows < r.id)) :=
  c3_merge_functional.1 _ _ (by decide) rfl rfl

/-- Claim C4: across any sequence of reads the cursor never decreases; a
successful read from a cursor within the file leaves the cursor at the
end-of-file offset reached; reset puts the cursor at exactly 0; and a read
right after a reset considers the file content from offset 0. -/
theorem c4_cursor :
    (∀ (p : RealTimeMetricsProcessor) (files : List (Option (List Char))),
      p.last_position ≤
        (files.foldl (fun q f => (q.read_new_data f).2) p).last_position) ∧
    (∀ (p : RealTimeMetricsProcessor) (content : List Char),
      p.last_position ≤ content.length →
      ((p.read_new_data (some content)).2).last_position = content.length) ∧
    (∀ p : RealTimeMetricsProcessor, p.reset_position.last_position = 0) ∧
    (∀ (p : RealTimeMetricsProcessor) (content : List Char),
      (p.reset_position.read_new_data (some content)).1 =
        if content.all Char.isWhitespace then none else some content) := by
  refine ⟨?_, ?_, fun _ => rfl, ?_⟩
  · intro p files
    induction files generalizing p with
    | nil => exact le_refl _
    | cons f fs ih =>
      refine le_trans ?_ (ih ((p.read_new_data f).2))
      cases f with
      | none => exact le_refl _
      | some content =>
        simp [RealTimeMetricsProcessor.read_new_data]
  · intro p content h
    simp [RealTimeMetricsProcessor.read_new_data, max_eq_right h]
  · intro p content
    simp [RealTimeMetricsProcessor.read_new_data,
      RealTimeMetricsProcessor.reset_position]

/-- Witness for C4: a read of a two-character file from the fresh cursor 0
lands the cursor at offset 2. -/
theorem c4_cursor_witness :
    ((RealTimeMetricsProcessor.init.read_new_data
        (some (str "ab"))).2).last_position = (str "ab").length :=
  c4_cursor.2.1 _ _ (by decide)

/-- Claim C5: reading a nonexistent file yields no new data and leaves the
processor (in particular its cursor) unchanged; reading a file that is empty
or all whitespace past the cursor yields no new data. -/
theorem c5_no_data :
    (∀ p : RealTimeMetricsProcessor, p.read_new_data none = (none, p)) ∧
    (∀ (p : RealTimeMetricsProcessor) (content : List Char),
      (content.drop p.last_position).all Char.isWhitespace = true →
      (p.read_new_data (some content)).1 = none) := by
  refine ⟨fun _ => rfl, ?_⟩
  intro p content h
  simp [RealTimeMetricsProcessor.read_new_data, h]

/-- Witness for C5: a whitespace-only file read from cursor 0. -/
theorem c5_no_data_witness :
    (RealTimeMetricsProcessor.init.read_new_data (some (str "  \n"))).1 = none :=
  c5_no_data.2 _ _ (by decide)

/-- Claim C6: every extraction failure — empty output, non-zero exit status,
timeout, or unparseable tabular output — makes the streaming incremental step
return the prior dataset unchanged. -/
theorem c6_failure_preserves (d : DataFrame) :
    process_incremental_data RunResult.okEmptyOutput d = d ∧
    process_incremental_data RunResult.nonzeroExit d = d ∧
    process_incremental_data RunResult.timeout d = d ∧
    process_incremental_data RunResult.unparseable d = d :=
  ⟨rfl, rfl, rfl, rfl⟩

/-- Claim C7: batch ingestion returns a dataset exactly when extraction
succeeds, in which case every returned record is tagged with
`source_file = filename` and no failure is reported; on every failure mode it
returns no dataset and reports a failure naming that source; and processing a
batch of files factors through processing each file independently. -/
theorem c7_batch :
    (∀ (df : DataFrame) (fname : String),
      (process_file (RunResult.ok df) fname).1 =
        some ⟨df.hasIdCol,
          df.rows.map (fun r => { r with source_file := some fname })⟩ ∧
      (process_file (RunResult.ok df) fname).2 = none ∧
      (∀ out, (process_file (RunResult.ok df) fname).1 = some out →
        ∀ r ∈ out.rows, r.source_file = some fname)) ∧
    (∀ fname : String,
      process_file RunResult.okEmptyOutput fname = (none, some fname) ∧
      process_file RunResult.nonzeroExit fname = (none, some fname) ∧
      process_file RunResult.timeout fname = (none, some fname) ∧
      process_file RunResult.unparseable fname = (none, some fname)) ∧
    (∀ (res : RunResult) (fname : String),
      (∃ out, (process_file res fname).1 = some out) ↔
        ∃ df, res = RunResult.ok df) ∧
    (∀ xs ys : List (String × RunResult),
      processFiles (xs ++ ys) = processFiles xs ++ processFiles ys) := by
  refine ⟨?_, fun _ => ⟨rfl, rfl, rfl, rfl⟩, ?_, ?_⟩
  · intro df fname
    refine ⟨rfl, rfl, ?_⟩
    intro out hout r hr
    have hout' : out = ⟨df.hasIdCol,
        df.rows.map (fun r => { r with source_file := some fname })⟩ :=
      (Option.some.inj hout).symm
    subst hout'
    obtain ⟨x, _, hx⟩ := List.mem_map.mp hr
    rw [← hx]
  · intro res fname
    cases res with
    | ok df => exact ⟨fun _ => ⟨df, rfl⟩, fun _ => ⟨_, rfl⟩⟩
    | okEmptyOutput => simp [process_file]
    | nonzeroExit => simp [process_file]
    | timeout => simp [process_file]
    | unparseable => simp [process_file]
  · intro xs ys
    simp [processFiles]

/-- Witness for C7: a one-record file tagged with its source name. -/
theorem c7_batch_witness :
    (process_file (RunResult.ok ⟨true, [mkRec 1]⟩) "a.log").1 =
      some ⟨true, [{ mkRec 1 with source_file := some "a.log" }]⟩ ∧
    ({ mkRec 1 with source_file := some "a.log" } : Record).source_file =
      some "a.log" :=
  ⟨(c7_batch.1 ⟨true, [mkRec 1]⟩ "a.log").1,
   (c7_batch.1 ⟨true, [mkRec 1]⟩ "a.log").2.2
     ⟨true, [{ mkRec 1 with source_file := some "a.log" }]⟩
     (c7_batch.1 ⟨true, [mkRec 1]⟩ "a.log").1 _ (by decide)⟩

/-- Claim C8, counterexample to the claim as stated.  With an existing frame
lacking the `id` column, `max_id` defaults to 0, but a newly extracted record
with id 0 is still dropped by the `id > max_id` filter — the merge does not
accept *all* newly extracted records. -/
theorem c8_counterexample :
    process_incremental_data (RunResult.ok ⟨true, [mkRec 0]⟩) ⟨false, [mkRec 3]⟩ =
      ⟨false, [mkRec 3]⟩ ∧
    (process_incremental_data (RunResult.ok ⟨true, [mkRec 0]⟩)
        ⟨false, [mkRec 3]⟩).rows ≠
      (DataFrame.mk false [mkRec 3]).rows ++ (DataFrame.mk true [mkRec 0]).rows := by
  decide

/-- Claim C8 (amended): when the existing (non-empty) dataset lacks the `id`
column, `max_id` defaults to 0 and the merge degrades gracefully to accepting
all newly extracted records with positive id (records with id 0 are still
dropped by the `id > 0` filter); in particular when every new record has a
positive id, all of them are accepted. -/
theorem c8_missing_id_col (D n : DataFrame) (hD : D.rows ≠ [])
    (hcol : D.hasIdCol = false) (hn : n.hasIdCol = true) :
    (process_incremental_data (RunResult.ok n) D).rows =
      D.rows ++ n.rows.filter (fun r => decide (0 < r.id)) ∧
    ((∀ r ∈ n.rows, 0 < r.id) →
      (process_incremental_data (RunResult.ok n) D).rows = D.rows ++ n.rows) := by
  have h1 : (process_incremental_data (RunResult.ok n) D).rows =
      D.rows ++ n.rows.filter (fun r => decide (0 < r.id)) :=
    mergeIncremental_rows_noIdcol D n hD hcol hn
  refine ⟨h1, ?_⟩
  intro hall
  rw [h1, List.filter_eq_self.mpr (fun a ha => by simpa using hall a ha)]

/-- Witness for C8 (amended): an id-column-free existing frame accepting both
new records with ids 1 and 2. -/
theorem c8_missing_id_col_witness :
    (process_incremental_data (RunResult.ok ⟨true, [mkRec 1, mkRec 2]⟩)
        ⟨false, [mkRec 9]⟩).rows =
      (DataFrame.mk false [mkRec 9]).rows ++ [mkRec 1, mkRec 2] :=
  (c8_missing_id_col ⟨false, [mkRec 9]⟩ ⟨true, [mkRec 1, mkRec 2]⟩
    (by decide) rfl rfl).2 (by decide)

/-- Claim C9, counterexample to the claim as stated.  Merging a first batch
with duplicate ids `[1, 1]` into the empty dataset stores both rows (the
empty-existing branch performs no dedup), so a reachable dataset can have
non-unique ids. -/
theorem c9_counterexample :
    idsOf (reach [[mkRec 1, mkRec 1]]) = [1, 1] ∧
    ¬ (idsOf (reach [[mkRec 1, mkRec 1]])).Nodup := by
  decide

/-- Claim C9 (amended): if every merged batch has strictly increasing ids
within the batch, then every dataset reachable from the empty dataset by
merges has strictly increasing (hence unique and non-decreasing) ids in
insertion order; moreover every merge only ever appends after the existing
rows, and a record whose id is at most the current maximum is discarded —
it is in the merged rows only if it was already among the existing rows. -/
theorem c9_reachable_invariant (batches : List (List Record))
    (h : ∀ b ∈ batches, List.Pairwise (fun r s : Record => r.id < s.id) b) :
    List.Pairwise (· < ·) (idsOf (reach batches)) ∧
    (idsOf (reach batches)).Nodup ∧
    (∀ (d b : DataFrame), ∃ suffix,
      (process_incremental_data (RunResult.ok b) d).rows = d.rows ++ suffix) ∧
    (∀ (d b : DataFrame) (r : Record), d.rows ≠ [] → d.hasIdCol = true →
      b.hasIdCol = true → r.id ≤ maxIdOf d.rows →
      (r ∈ (process_incremental_data (RunResult.ok b) d).rows ↔ r ∈ d.rows)) := by
  have h1 : List.Pairwise (· < ·) (idsOf (reach batches)) :=
    reachAux batches ⟨false, []⟩ (fun hc => absurd rfl hc) (by simp [idsOf]) h
  refine ⟨h1, h1.imp (fun hlt => Nat.ne_of_lt hlt), ?_, ?_⟩
  · intro d b
    exact mergeIncremental_extends d b
  · intro d b r hd hcolD hn hr
    exact mergeIncremental_stale d b r hd hcolD hn hr

/-- Witness for C9 (amended): two strictly increasing batches produce strictly
increasing ids. -/
theorem c9_reachable_invariant_witness :
    List.Pairwise (· < ·) (idsOf (reach [[mkRec 1, mkRec 3], [mkRec 2, mkRec 4]])) :=
  (c9_reachable_invariant [[mkRec 1, mkRec 3], [mkRec 2, mkRec 4]] (by decide)).1

/-- Claim C10: the streaming tab's processor is constructed fresh with cursor
`last_position = 0` (`app.py` lines 489-490), so the read step of a poll
iteration considers the monitored file's entire content from offset 0; and
repeating a poll iteration on the same extracted records leaves the dataset
unchanged — deduplication rests entirely on the id-based merge filter, not on
cursor persistence. -/
theorem c10_fresh_processor :
    RealTimeMetricsProcessor.init.last_position = 0 ∧
    (∀ content : List Char,
      (RealTimeMetricsProcessor.init.read_new_data (some content)).1 =
        (if content.all Char.isWhitespace then none else some content)) ∧
    (∀ (recs : List Record) (d : DataFrame),
      pollStep recs (pollStep recs d) = pollStep recs d) := by
  refine ⟨rfl, ?_, pollStep_idem⟩
  intro content
  simp [RealTimeMetricsProcessor.read_new_data, RealTimeMetricsProcessor.init]
